import Mathlib

/-!
# Verification of the GLS camera and object utilities

This file gives a shallow embedding of the algorithmic parts of the GLS
library: the 3D camera utility (`include/gls/utilities/camera.hpp`), the
RAII resource handle (`include/gls/objects/object.hpp`) and the stored
dimensions of the renderbuffer wrapper
(`include/gls/objects/renderbuffer.hpp`), together with proofs about them.

The C++ code is generic over a scalar type `T` and uses the math functions
`std::sqrt`, `std::sin`, `std::cos` and `std::tan`.  The embedding is
generic over a field `α` and receives those functions in a `ScalarFns α`
record, so that the camera operations stay executable; the real-number
instantiation uses `Real.sqrt`, `Real.sin`, `Real.cos` and `Real.tan`.
Vectors `std::array<T, 3>` are embedded as `Fin 3 → α`, quaternions
`std::array<T, 4>` as `Fin 4 → α` and the column-major flattened matrices
`std::array<T, 16>` as `Fin 16 → α`.
-/

namespace gls

/-- The math functions a `gls::camera<T>` instantiation draws from `<cmath>`,
together with the constant `pi` used by the camera. -/
structure ScalarFns (α : Type) where
  sqrt : α → α
  sin : α → α
  cos : α → α
  tan : α → α
  pi : α

variable {α : Type} [Field α]

/-- `camera::vector_length`: `std::sqrt(v[0]*v[0] + v[1]*v[1] + v[2]*v[2])`. -/
def vector_length (fns : ScalarFns α) (v : Fin 3 → α) : α :=
  fns.sqrt (v 0 * v 0 + v 1 * v 1 + v 2 * v 2)

/-- `camera::vector_normalize`: divides each component by the length. -/
def vector_normalize (fns : ScalarFns α) (v : Fin 3 → α) : Fin 3 → α :=
  let length := vector_length fns v
  ![v 0 / length, v 1 / length, v 2 / length]

/-- `camera::vector_dot`. -/
def vector_dot (v w : Fin 3 → α) : α :=
  v 0 * w 0 + v 1 * w 1 + v 2 * w 2

/-- `camera::vector_cross`. -/
def vector_cross (v w : Fin 3 → α) : Fin 3 → α :=
  ![v 1 * w 2 - v 2 * w 1,
    v 2 * w 0 - v 0 * w 2,
    v 0 * w 1 - v 1 * w 0]

/-- `camera::quaternion_length`. -/
def quaternion_length (fns : ScalarFns α) (q : Fin 4 → α) : α :=
  fns.sqrt (q 0 * q 0 + q 1 * q 1 + q 2 * q 2 + q 3 * q 3)

/-- `camera::quaternion_normalize`. -/
def quaternion_normalize (fns : ScalarFns α) (q : Fin 4 → α) : Fin 4 → α :=
  let length := quaternion_length fns q
  ![q 0 / length, q 1 / length, q 2 / length, q 3 / length]

/-- `camera::quaternion_conjugate`. -/
def quaternion_conjugate (q : Fin 4 → α) : Fin 4 → α :=
  ![-q 0, -q 1, -q 2, q 3]

/-- `camera::quaternion_multiply`. -/
def quaternion_multiply (q r : Fin 4 → α) : Fin 4 → α :=
  ![q 0 * r 3 + q 3 * r 0 + q 1 * r 2 - q 2 * r 1,
    q 1 * r 3 + q 3 * r 1 + q 2 * r 0 - q 0 * r 2,
    q 2 * r 3 + q 3 * r 2 + q 0 * r 1 - q 1 * r 0,
    q 3 * r 3 - q 0 * r 0 - q 1 * r 1 - q 2 * r 2]

/-- `camera::matrix_mult`: product of two column-major flattened 4×4 matrices. -/
def matrix_mult (m n : Fin 16 → α) : Fin 16 → α :=
  ![m 0 * n 0 + m 4 * n 1 + m 8 * n 2 + m 12 * n 3,
    m 1 * n 0 + m 5 * n 1 + m 9 * n 2 + m 13 * n 3,
    m 2 * n 0 + m 6 * n 1 + m 10 * n 2 + m 14 * n 3,
    m 3 * n 0 + m 7 * n 1 + m 11 * n 2 + m 15 * n 3,
    m 0 * n 4 + m 4 * n 5 + m 8 * n 6 + m 12 * n 7,
    m 1 * n 4 + m 5 * n 5 + m 9 * n 6 + m 13 * n 7,
    m 2 * n 4 + m 6 * n 5 + m 10 * n 6 + m 14 * n 7,
    m 3 * n 4 + m 7 * n 5 + m 11 * n 6 + m 15 * n 7,
    m 0 * n 8 + m 4 * n 9 + m 8 * n 10 + m 12 * n 11,
    m 1 * n 8 + m 5 * n 9 + m 9 * n 10 + m 13 * n 11,
    m 2 * n 8 + m 6 * n 9 + m 10 * n 10 + m 14 * n 11,
    m 3 * n 8 + m 7 * n 9 + m 11 * n 10 + m 15 * n 11,
    m 0 * n 12 + m 4 * n 13 + m 8 * n 14 + m 12 * n 15,
    m 1 * n 12 + m 5 * n 13 + m 9 * n 14 + m 13 * n 15,
    m 2 * n 12 + m 6 * n 13 + m 10 * n 14 + m 14 * n 15,
    m 3 * n 12 + m 7 * n 13 + m 11 * n 14 + m 15 * n 15]

/-- The state of a `gls::camera<T>`: the three mutable cached matrices, the
view parameters, the projection parameters and the three dirty flags, in
declaration order of the C++ class. -/
structure camera (α : Type) where
  m_projection : Fin 16 → α
  m_view : Fin 16 → α
  m_matrix : Fin 16 → α
  m_position : Fin 3 → α
  m_direction : Fin 3 → α
  m_up : Fin 3 → α
  m_fov : α
  m_aspect : α
  m_near : α
  m_far : α
  m_projection_dirty : Bool
  m_view_dirty : Bool
  m_matrix_dirty : Bool
deriving DecidableEq

/-- The default constructor `camera()`: all members take their default
member initializers.  The three cached matrices are default-initialized
`std::array`s holding indeterminate values, so they are passed in as
arbitrary arguments here. -/
def camera.init (fns : ScalarFns α) (proj view mat : Fin 16 → α) : camera α :=
  ⟨proj, view, mat, ![0, 0, 0], ![0, 0, -1], ![0, 1, 0],
    fns.pi * 90 / 180, 1, 1, 1000, true, true, true⟩

/-- The constructor `camera(fov, aspect, near_distance, far_distance)`. -/
def camera.mk_proj (fov aspect near_distance far_distance : α)
    (proj view mat : Fin 16 → α) : camera α :=
  ⟨proj, view, mat, ![0, 0, 0], ![0, 0, -1], ![0, 1, 0],
    fov, aspect, near_distance, far_distance, true, true, true⟩

/-- The constructor
`camera(fov, aspect, near_distance, far_distance, position, direction, up)`,
which normalizes the direction and up vectors. -/
def camera.mk_full (fns : ScalarFns α)
    (fov aspect near_distance far_distance : α)
    (position direction up : Fin 3 → α)
    (proj view mat : Fin 16 → α) : camera α :=
  ⟨proj, view, mat, position,
    vector_normalize fns direction, vector_normalize fns up,
    fov, aspect, near_distance, far_distance, true, true, true⟩

variable [DecidableEq α]

/-- `camera::set_fov`. -/
def camera.set_fov (c : camera α) (fov : α) : camera α :=
  if c.m_fov = fov then c
  else { c with m_fov := fov, m_projection_dirty := true, m_matrix_dirty := true }

/-- `camera::set_aspect`. -/
def camera.set_aspect (c : camera α) (aspect : α) : camera α :=
  if c.m_aspect = aspect then c
  else { c with m_aspect := aspect, m_projection_dirty := true, m_matrix_dirty := true }

/-- `camera::set_near_distance`. -/
def camera.set_near_distance (c : camera α) (near_distance : α) : camera α :=
  if c.m_near = near_distance then c
  else { c with m_near := near_distance, m_projection_dirty := true, m_matrix_dirty := true }

/-- `camera::set_far_distance`. -/
def camera.set_far_distance (c : camera α) (far_distance : α) : camera α :=
  if c.m_far = far_distance then c
  else { c with m_far := far_distance, m_projection_dirty := true, m_matrix_dirty := true }

/-- `camera::set_position`. -/
def camera.set_position (c : camera α) (position : Fin 3 → α) : camera α :=
  if c.m_position = position then c
  else { c with m_position := position, m_view_dirty := true, m_matrix_dirty := true }

/-- `camera::set_direction`: normalizes the input first. -/
def camera.set_direction (c : camera α) (fns : ScalarFns α) (direction : Fin 3 → α) : camera α :=
  let new_direction := vector_normalize fns direction
  if c.m_direction = new_direction then c
  else { c with m_direction := new_direction, m_view_dirty := true, m_matrix_dirty := true }

/-- `camera::set_up`: normalizes the input first. -/
def camera.set_up (c : camera α) (fns : ScalarFns α) (up : Fin 3 → α) : camera α :=
  let new_up := vector_normalize fns up
  if c.m_up = new_up then c
  else { c with m_up := new_up, m_view_dirty := true, m_matrix_dirty := true }

/-- `camera::move`: world-space translation, delegates to `set_position`. -/
def camera.move (c : camera α) (offset : Fin 3 → α) : camera α :=
  c.set_position
    ![c.m_position 0 + offset 0, c.m_position 1 + offset 1, c.m_position 2 + offset 2]

/-- `camera::move_relative`: camera-space translation.  The delta starts from
`-direction * offset[2]` and then accumulates `up * offset[1]` and
`- right * offset[0]` componentwise, exactly as in the source. -/
def camera.move_relative (c : camera α) (fns : ScalarFns α) (offset : Fin 3 → α) : camera α :=
  let right_vector := vector_normalize fns (vector_cross c.m_direction c.m_up)
  let delta : Fin 3 → α :=
    ![-c.m_direction 0 * offset 2 + (c.m_up 0 * offset 1 - right_vector 0 * offset 0),
      -c.m_direction 1 * offset 2 + (c.m_up 1 * offset 1 - right_vector 1 * offset 0),
      -c.m_direction 2 * offset 2 + (c.m_up 2 * offset 1 - right_vector 2 * offset 0)]
  c.move delta

/-- `camera::rotate(quaternion)`: conjugates direction and up by the
rotation quaternion and re-normalizes both. -/
def camera.rotate (c : camera α) (fns : ScalarFns α) (rotation : Fin 4 → α) : camera α :=
  let direction :=
    quaternion_multiply (quaternion_multiply rotation
      ![c.m_direction 0, c.m_direction 1, c.m_direction 2, 0])
      (quaternion_conjugate rotation)
  let up :=
    quaternion_multiply (quaternion_multiply rotation
      ![c.m_up 0, c.m_up 1, c.m_up 2, 0])
      (quaternion_conjugate rotation)
  { c with
    m_direction := vector_normalize fns ![direction 0, direction 1, direction 2],
    m_up := vector_normalize fns ![up 0, up 1, up 2],
    m_view_dirty := true,
    m_matrix_dirty := true }

/-- `camera::rotate(axis, angle)`: builds the quaternion
`(axis * sin(angle/2), cos(angle/2))` and delegates to the quaternion
overload. -/
def camera.rotate_axis_angle (c : camera α) (fns : ScalarFns α)
    (axis : Fin 3 → α) (angle : α) : camera α :=
  c.rotate fns
    ![axis 0 * fns.sin (angle / 2),
      axis 1 * fns.sin (angle / 2),
      axis 2 * fns.sin (angle / 2),
      fns.cos (angle / 2)]

/-- The local `direction` of `camera::set_orientation_taitbryan` after the
yaw block: the canonical direction `(0,0,-1,0)` conjugated by the yaw
quaternion `(0, sin(-yaw/2), 0, cos(-yaw/2))` and re-normalized. -/
def camera.tb_direction1 (fns : ScalarFns α) (yaw : α) : Fin 4 → α :=
  quaternion_normalize fns
    (quaternion_multiply
      (quaternion_multiply ![0, fns.sin (-yaw / 2), 0, fns.cos (-yaw / 2)] ![0, 0, -1, 0])
      (quaternion_conjugate ![0, fns.sin (-yaw / 2), 0, fns.cos (-yaw / 2)]))

/-- The local `right` of `camera::set_orientation_taitbryan`:
`normalize(cross((0,1,0), direction))` after the yaw block. -/
def camera.tb_right (fns : ScalarFns α) (yaw : α) : Fin 3 → α :=
  vector_normalize fns
    (vector_cross ![0, 1, 0]
      ![camera.tb_direction1 fns yaw 0, camera.tb_direction1 fns yaw 1,
        camera.tb_direction1 fns yaw 2])

/-- The pitch rotation quaternion of `camera::set_orientation_taitbryan`:
`(right * sin(pitch/2), cos(pitch/2))`. -/
def camera.tb_pitch_rotation (fns : ScalarFns α) (yaw pitch : α) : Fin 4 → α :=
  ![camera.tb_right fns yaw 0 * fns.sin (pitch / 2),
    camera.tb_right fns yaw 1 * fns.sin (pitch / 2),
    camera.tb_right fns yaw 2 * fns.sin (pitch / 2),
    fns.cos (pitch / 2)]

/-- The local `direction` of `camera::set_orientation_taitbryan` after the
pitch block: the yawed direction conjugated by the pitch quaternion. -/
def camera.tb_direction2 (fns : ScalarFns α) (yaw pitch : α) : Fin 4 → α :=
  quaternion_multiply
    (quaternion_multiply (camera.tb_pitch_rotation fns yaw pitch)
      (camera.tb_direction1 fns yaw))
    (quaternion_conjugate (camera.tb_pitch_rotation fns yaw pitch))

/-- The new `m_direction` stored by `camera::set_orientation_taitbryan`. -/
def camera.tb_new_direction (fns : ScalarFns α) (yaw pitch : α) : Fin 3 → α :=
  vector_normalize fns
    ![camera.tb_direction2 fns yaw pitch 0, camera.tb_direction2 fns yaw pitch 1,
      camera.tb_direction2 fns yaw pitch 2]

/-- The local `up_vector` of `camera::set_orientation_taitbryan`:
`normalize(cross(m_direction, right))`. -/
def camera.tb_up_vector (fns : ScalarFns α) (yaw pitch : α) : Fin 3 → α :=
  vector_normalize fns
    (vector_cross (camera.tb_new_direction fns yaw pitch) (camera.tb_right fns yaw))

/-- The roll rotation quaternion of `camera::set_orientation_taitbryan`:
`(m_direction * sin(roll/2), cos(roll/2))`. -/
def camera.tb_roll_rotation (fns : ScalarFns α) (yaw pitch roll : α) : Fin 4 → α :=
  ![camera.tb_new_direction fns yaw pitch 0 * fns.sin (roll / 2),
    camera.tb_new_direction fns yaw pitch 1 * fns.sin (roll / 2),
    camera.tb_new_direction fns yaw pitch 2 * fns.sin (roll / 2),
    fns.cos (roll / 2)]

/-- The local `up_quaternion` of `camera::set_orientation_taitbryan` after
the roll block. -/
def camera.tb_up_quaternion (fns : ScalarFns α) (yaw pitch roll : α) : Fin 4 → α :=
  quaternion_multiply
    (quaternion_multiply (camera.tb_roll_rotation fns yaw pitch roll)
      ![camera.tb_up_vector fns yaw pitch 0, camera.tb_up_vector fns yaw pitch 1,
        camera.tb_up_vector fns yaw pitch 2, 0])
    (quaternion_conjugate (camera.tb_roll_rotation fns yaw pitch roll))

/-- `camera::set_orientation_taitbryan`: absolute yaw-pitch-roll orientation
applied to the canonical frame facing `(0,0,-1)` with up `(0,1,0)`.  The
locals of the C++ function are the `camera.tb_*` definitions above. -/
def camera.set_orientation_taitbryan (c : camera α) (fns : ScalarFns α)
    (yaw pitch roll : α) : camera α :=
  { c with
    m_direction := camera.tb_new_direction fns yaw pitch,
    m_up :=
      vector_normalize fns
        ![camera.tb_up_quaternion fns yaw pitch roll 0,
          camera.tb_up_quaternion fns yaw pitch roll 1,
          camera.tb_up_quaternion fns yaw pitch roll 2],
    m_view_dirty := true,
    m_matrix_dirty := true }

/-- The projection matrix computed by the first block of `camera::update`. -/
def camera.compute_projection (c : camera α) (fns : ScalarFns α) : Fin 16 → α :=
  ![1 / (c.m_aspect * fns.tan (c.m_fov / 2)), 0, 0, 0,
    0, 1 / fns.tan (c.m_fov / 2), 0, 0,
    0, 0, -(c.m_far + c.m_near) / (c.m_far - c.m_near), -1,
    0, 0, -(2 * c.m_far * c.m_near) / (c.m_far - c.m_near), 0]

/-- The view matrix computed by the second block of `camera::update`:
an orthonormal-frame matrix multiplied by the translation by
`-position`. -/
def camera.compute_view (c : camera α) (fns : ScalarFns α) : Fin 16 → α :=
  let d := c.m_direction
  let s := vector_normalize fns (vector_cross c.m_direction c.m_up)
  let u := vector_cross s d
  matrix_mult
    ![s 0, u 0, -d 0, 0,
      s 1, u 1, -d 1, 0,
      s 2, u 2, -d 2, 0,
      0, 0, 0, 1]
    ![1, 0, 0, 0,
      0, 1, 0, 0,
      0, 0, 1, 0,
      -c.m_position 0, -c.m_position 1, -c.m_position 2, 1]

/-- `camera::update`: refreshes, in order, the projection matrix when
projection-dirty, the view matrix when view-dirty, and the combined matrix
(as `matrix_mult(projection, view)`) when matrix-dirty, clearing each flag
after its refresh. -/
def camera.update (c : camera α) (fns : ScalarFns α) : camera α :=
  let c1 :=
    if c.m_projection_dirty then
      { c with m_projection := c.compute_projection fns, m_projection_dirty := false }
    else c
  let c2 :=
    if c1.m_view_dirty then
      { c1 with m_view := c1.compute_view fns, m_view_dirty := false }
    else c1
  if c2.m_matrix_dirty then
    { c2 with m_matrix := matrix_mult c2.m_projection c2.m_view, m_matrix_dirty := false }
  else c2

/-- `camera::get_view`: runs `update` and returns the cached view matrix. -/
def camera.get_view (c : camera α) (fns : ScalarFns α) : Fin 16 → α :=
  (c.update fns).m_view

/-- `camera::get_projection`: runs `update` and returns the cached
projection matrix. -/
def camera.get_projection (c : camera α) (fns : ScalarFns α) : Fin 16 → α :=
  (c.update fns).m_projection

/-- `camera::get_matrix`: runs `update` and returns the cached combined
matrix. -/
def camera.get_matrix (c : camera α) (fns : ScalarFns α) : Fin 16 → α :=
  (c.update fns).m_matrix

/-- The camera states reachable by any sequence of constructor calls,
setter/mutator calls and matrix queries (a query mutates the `mutable`
caches through `update`). -/
inductive camera.Reachable (fns : ScalarFns α) : camera α → Prop
  | init : ∀ proj view mat, camera.Reachable fns (camera.init fns proj view mat)
  | mk_proj : ∀ fov aspect near_distance far_distance proj view mat,
      camera.Reachable fns (camera.mk_proj fov aspect near_distance far_distance proj view mat)
  | mk_full : ∀ fov aspect near_distance far_distance position direction up proj view mat,
      camera.Reachable fns
        (camera.mk_full fns fov aspect near_distance far_distance position direction up
          proj view mat)
  | set_fov : ∀ c fov, camera.Reachable fns c → camera.Reachable fns (c.set_fov fov)
  | set_aspect : ∀ c aspect, camera.Reachable fns c → camera.Reachable fns (c.set_aspect aspect)
  | set_near_distance : ∀ c nd, camera.Reachable fns c →
      camera.Reachable fns (c.set_near_distance nd)
  | set_far_distance : ∀ c fd, camera.Reachable fns c →
      camera.Reachable fns (c.set_far_distance fd)
  | set_position : ∀ c position, camera.Reachable fns c →
      camera.Reachable fns (c.set_position position)
  | set_direction : ∀ c direction, camera.Reachable fns c →
      camera.Reachable fns (c.set_direction fns direction)
  | set_up : ∀ c up, camera.Reachable fns c → camera.Reachable fns (c.set_up fns up)
  | move : ∀ c offset, camera.Reachable fns c → camera.Reachable fns (c.move offset)
  | move_relative : ∀ c offset, camera.Reachable fns c →
      camera.Reachable fns (c.move_relative fns offset)
  | rotate : ∀ c rotation, camera.Reachable fns c → camera.Reachable fns (c.rotate fns rotation)
  | rotate_axis_angle : ∀ c axis angle, camera.Reachable fns c →
      camera.Reachable fns (c.rotate_axis_angle fns axis angle)
  | set_orientation_taitbryan : ∀ c yaw pitch roll, camera.Reachable fns c →
      camera.Reachable fns (c.set_orientation_taitbryan fns yaw pitch roll)
  | query : ∀ c, camera.Reachable fns c → camera.Reachable fns (c.update fns)

/-- A concrete executable instantiation of the math functions over `ℚ`,
used for witnesses.  Witnesses only evaluate `sqrt` at `0` and `1`, where
the identity function agrees with the real square root. -/
def ratFns : ScalarFns ℚ :=
  ⟨fun x => x, fun _ => 0, fun _ => 1, fun _ => 1, 3⟩

/-- The real-number instantiation of the math functions, matching the
`float`/`double` instantiations of `gls::camera`. -/
noncomputable def realFns : ScalarFns ℝ :=
  ⟨Real.sqrt, Real.sin, Real.cos, Real.tan, Real.pi⟩

/-- The stored dimensions of a `gls::renderbuffer`: the constructor
`renderbuffer(samples, internal_format, the_width, the_height)` stores both
arguments. -/
structure renderbuffer where
  m_width : Int
  m_height : Int

/-- The `renderbuffer` constructor: stores `the_width` into `m_width` and
`the_height` into `m_height` (the GL storage-allocation calls have no
bearing on the stored fields). -/
def renderbuffer.mk_storage (the_width the_height : Int) : renderbuffer :=
  ⟨the_width, the_height⟩

/-- `renderbuffer::width()`: returns `m_width`. -/
def renderbuffer.width (r : renderbuffer) : Int :=
  r.m_width

/-- `renderbuffer::height()`: as written in the source, returns `m_width`. -/
def renderbuffer.height (r : renderbuffer) : Int :=
  r.m_width

/-- The two move operations available on `gls::object` handles after the
initial construction: move-construction of a fresh handle from an existing
one, and move-assignment between two existing handles.  Handles are
referred to by their index in order of creation. -/
inductive MoveOp where
  | moveConstructFrom (src : Nat)
  | moveAssign (target src : Nat)
deriving DecidableEq

/-- The state of a collection of `gls::object` handles that arose from a
single constructed handle: `len` handles exist, `names k` is the `m_name`
of handle `k` (for `k < len`), and `destroyLog` records every identifier
the `Deleter` has been invoked with so far (the move operations never call
the `Deleter`; only destruction does). -/
structure HandleWorld where
  len : Nat
  names : Nat → Nat
  mfAny : Nat → Bool
  mfCons : Nat → Bool
  destroyLog : List Nat

/-- The world holding the single initially constructed handle, whose
`Generator` produced the identifier `g`.  The ghost flags `mfAny` (handle
is moved-from: it was the source of a move and has not been assigned to
since) and `mfCons` (handle is moved-from specifically by
move-construction and untouched by any move-assignment since) start out
false. -/
def HandleWorld.start (g : Nat) : HandleWorld :=
  ⟨1, fun k => if k = 0 then g else 0, fun _ => false, fun _ => false, []⟩

/-- One move operation on the handle world.
`object(object&& other)` initializes `m_name(0)` and swaps with `other`,
so the new handle receives `other`'s identifier and `other` is left with
`0`.  `operator=(object&& other)` is `std::swap(m_name, other.m_name)`;
it performs no `Deleter` call.  The ghost moved-from flags track the
meta-level "moved-from" status used by the specification: the source of a
move becomes moved-from and the target of an assignment ceases to be. -/
def HandleWorld.step (w : HandleWorld) : MoveOp → HandleWorld
  | .moveConstructFrom src =>
      if src < w.len then
        ⟨w.len + 1,
          fun k => if k = src then 0 else if k = w.len then w.names src else w.names k,
          fun k => if k = src then true else if k = w.len then false else w.mfAny k,
          fun k => if k = src then true else if k = w.len then false else w.mfCons k,
          w.destroyLog⟩
      else w
  | .moveAssign target src =>
      if target < w.len ∧ src < w.len then
        ⟨w.len,
          fun k => if k = target then w.names src else if k = src then w.names target
            else w.names k,
          fun k => if k = target then false else if k = src then true else w.mfAny k,
          fun k => if k = target then false else if k = src then false else w.mfCons k,
          w.destroyLog⟩
      else w

/-- Run a sequence of move operations from the single constructed handle. -/
def HandleWorld.run (g : Nat) (ops : List MoveOp) : HandleWorld :=
  ops.foldl HandleWorld.step (HandleWorld.start g)

/-- Destroy every handle in the world: each destructor invokes the
`Deleter` with the handle's current identifier, appending it to the
destroy log. -/
def HandleWorld.destroyAll (w : HandleWorld) : List Nat :=
  w.destroyLog ++ (List.range w.len).map w.names

/-- Claim C2 as stated: starting from a single constructed handle with
generated identifier `g`, after any sequence of move-constructions and
move-assignments (i) destroying all handles invokes the `Deleter` with `g`
exactly once, and (ii) every moved-from handle's `name()` returns the
sentinel `0`. -/
def ClaimC2 : Prop :=
  ∀ (g : Nat), g ≠ 0 → ∀ (ops : List MoveOp),
    ((HandleWorld.run g ops).destroyAll.count g = 1) ∧
    (∀ k, (HandleWorld.run g ops).mfAny k = true → (HandleWorld.run g ops).names k = 0)

/-- Claim C1 as stated, at the real-number instantiation: for every camera
whose direction/up frame is non-degenerate and every offset,
`move_relative(offset)` adds `offset[0] * right + offset[1] * up -
offset[2] * direction` to the position (with
`right = normalize(cross(direction, up))`) and leaves direction and up
unchanged. -/
def ClaimC1 : Prop :=
  ∀ (c : camera ℝ) (offset : Fin 3 → ℝ),
    vector_cross c.m_direction c.m_up ≠ 0 →
    ((c.move_relative realFns offset).m_position = fun i =>
      c.m_position i
        + offset 0 * vector_normalize realFns (vector_cross c.m_direction c.m_up) i
        + offset 1 * c.m_up i
        - offset 2 * c.m_direction i) ∧
    (c.move_relative realFns offset).m_direction = c.m_direction ∧
    (c.move_relative realFns offset).m_up = c.m_up

/-- A concrete default-constructed rational camera used by witnesses; the
indeterminate initial matrix caches are instantiated with zero. -/
def camQ : camera ℚ :=
  camera.init ratFns (fun _ => 0) (fun _ => 0) (fun _ => 0)

/-- A concrete default-constructed real camera. -/
noncomputable def camR : camera ℝ :=
  camera.init realFns (fun _ => 0) (fun _ => 0) (fun _ => 0)

/-- The cache-consistency invariant of the camera: whenever the
matrix-dirty flag is clear, the projection-dirty and view-dirty flags are
clear as well and the cached combined matrix is the product of the cached
projection and view matrices. -/
def camera.CleanConsistent {α : Type} [Field α] (c : camera α) : Prop :=
  c.m_matrix_dirty = false →
    c.m_projection_dirty = false ∧ c.m_view_dirty = false ∧
    c.m_matrix = matrix_mult c.m_projection c.m_view

/-- Ownership invariant of the handle world: some handle `j` holds the
originally generated identifier `g` and is not moved-from-by-construction,
every other handle holds the sentinel `0`, and no `Deleter` call has been
made. -/
def HandleWorld.OwnerInv (g : Nat) (w : HandleWorld) : Prop :=
  ∃ j, j < w.len ∧ w.names j = g ∧ w.mfCons j = false ∧
    (∀ k, k ≠ j → w.names k = 0) ∧ w.destroyLog = []

end gls

namespace gls

variable {α : Type} [Field α] [DecidableEq α]

omit [DecidableEq α] in
theorem compute_view_proj_irrel (fns : ScalarFns α) (c : camera α) (p : Fin 16 → α)
    (b : Bool) :
    camera.compute_view { c with m_projection := p, m_projection_dirty := b } fns =
      c.compute_view fns :=
  rfl

omit [DecidableEq α] in
/-- `camera::update` in solved form: each cached matrix is refreshed exactly
when its dirty flag is set, the combined matrix is the product of the
refreshed projection and view, and all three flags are cleared. -/
theorem camera.update_eq (fns : ScalarFns α) (c : camera α) :
    c.update fns =
      { c with
        m_projection :=
          if c.m_projection_dirty then c.compute_projection fns else c.m_projection,
        m_view := if c.m_view_dirty then c.compute_view fns else c.m_view,
        m_matrix :=
          if c.m_matrix_dirty then
            matrix_mult
              (if c.m_projection_dirty then c.compute_projection fns else c.m_projection)
              (if c.m_view_dirty then c.compute_view fns else c.m_view)
          else c.m_matrix,
        m_projection_dirty := false,
        m_view_dirty := false,
        m_matrix_dirty := false } := by
  rcases c with ⟨proj, view, mat, pos, dir, up, fov, aspect, near, far, pd, vd, md⟩
  cases pd <;> cases vd <;> cases md <;>
    simp [camera.update, camera.compute_view]

omit [DecidableEq α] in
/-- The parameter fields of the camera are untouched by `update`. -/
theorem camera.update_params (fns : ScalarFns α) (c : camera α) :
    (c.update fns).m_position = c.m_position ∧
    (c.update fns).m_direction = c.m_direction ∧
    (c.update fns).m_up = c.m_up ∧
    (c.update fns).m_fov = c.m_fov ∧
    (c.update fns).m_aspect = c.m_aspect ∧
    (c.update fns).m_near = c.m_near ∧
    (c.update fns).m_far = c.m_far := by
  rw [camera.update_eq]
  exact ⟨rfl, rfl, rfl, rfl, rfl, rfl, rfl⟩

omit [DecidableEq α] in
/-- Running `update` on an already-updated camera changes nothing: all the
dirty flags are clear, so every recomputation branch is skipped. -/
theorem camera.update_update (fns : ScalarFns α) (c : camera α) :
    (c.update fns).update fns = c.update fns := by
  have h1 : (c.update fns).m_projection_dirty = false := by rw [camera.update_eq]
  have h2 : (c.update fns).m_view_dirty = false := by rw [camera.update_eq]
  have h3 : (c.update fns).m_matrix_dirty = false := by rw [camera.update_eq]
  rcases e : c.update fns with ⟨p, v, m, pos, dir, up, fov, asp, nd, fd, pd, vd, md⟩
  rw [e] at h1 h2 h3
  simp only at h1 h2 h3
  subst h1
  subst h2
  subst h3
  rw [camera.update_eq]
  simp

/-- C9: a renderbuffer constructed with width `w` and height `h` reports
`w` from both `width()` and `height()`: the `height()` accessor reads the
stored width field. -/
theorem claim_C9_renderbuffer_height_returns_width (w h : Int) :
    (renderbuffer.mk_storage w h).height = w ∧ (renderbuffer.mk_storage w h).width = w :=
  ⟨rfl, rfl⟩

/-- C8: every camera setter called with a value equal to the currently
stored one (for `set_direction`/`set_up`: whose normalization equals the
stored vector) returns the state unchanged — parameters, cached matrices
and dirty flags included — and otherwise stores the new value and marks
exactly the projection-dirty and matrix-dirty flags (for the projection
parameters) or the view-dirty and matrix-dirty flags (for the view
parameters), leaving everything else unchanged. -/
theorem claim_C8_setter_noop_or_invalidate (fns : ScalarFns α) (c : camera α)
    (x : α) (v : Fin 3 → α) :
    (c.m_fov = x → c.set_fov x = c) ∧
    (c.m_fov ≠ x → c.set_fov x =
      { c with m_fov := x, m_projection_dirty := true, m_matrix_dirty := true }) ∧
    (c.m_aspect = x → c.set_aspect x = c) ∧
    (c.m_aspect ≠ x → c.set_aspect x =
      { c with m_aspect := x, m_projection_dirty := true, m_matrix_dirty := true }) ∧
    (c.m_near = x → c.set_near_distance x = c) ∧
    (c.m_near ≠ x → c.set_near_distance x =
      { c with m_near := x, m_projection_dirty := true, m_matrix_dirty := true }) ∧
    (c.m_far = x → c.set_far_distance x = c) ∧
    (c.m_far ≠ x → c.set_far_distance x =
      { c with m_far := x, m_projection_dirty := true, m_matrix_dirty := true }) ∧
    (c.m_position = v → c.set_position v = c) ∧
    (c.m_position ≠ v → c.set_position v =
      { c with m_position := v, m_view_dirty := true, m_matrix_dirty := true }) ∧
    (c.m_direction = vector_normalize fns v → c.set_direction fns v = c) ∧
    (c.m_direction ≠ vector_normalize fns v → c.set_direction fns v =
      { c with
        m_direction := vector_normalize fns v,
        m_view_dirty := true, m_matrix_dirty := true }) ∧
    (c.m_up = vector_normalize fns v → c.set_up fns v = c) ∧
    (c.m_up ≠ vector_normalize fns v → c.set_up fns v =
      { c with
        m_up := vector_normalize fns v,
        m_view_dirty := true, m_matrix_dirty := true }) := by
  refine ⟨fun h => ?_, fun h => ?_, fun h => ?_, fun h => ?_, fun h => ?_, fun h => ?_,
    fun h => ?_, fun h => ?_, fun h => ?_, fun h => ?_, fun h => ?_, fun h => ?_,
    fun h => ?_, fun h => ?_⟩ <;>
  simp [camera.set_fov, camera.set_aspect, camera.set_near_distance,
    camera.set_far_distance, camera.set_position, camera.set_direction, camera.set_up, h]

/-- Witness for C8 at a concrete rational camera: `set_fov` with the
stored field-of-view value is the identity, and with a different value it
stores the value and sets the projection-dirty and matrix-dirty flags. -/
theorem claim_C8_witness :
    camQ.set_fov (3 * 90 / 180) = camQ ∧
    camQ.set_fov 9 =
      { camQ with m_fov := 9, m_projection_dirty := true, m_matrix_dirty := true } :=
  ⟨(claim_C8_setter_noop_or_invalidate ratFns camQ (3 * 90 / 180) 0).1 rfl,
   (claim_C8_setter_noop_or_invalidate ratFns camQ 9 0).2.1
      (by norm_num [camQ, camera.init, ratFns])⟩

/-- C3: a matrix query (all of which run `update`) recomputes the
projection matrix iff the projection-dirty flag is set and clears that
flag; likewise for the view matrix and the view-dirty flag; and it
recomputes the combined matrix iff the matrix-dirty flag is set, as the
product of the already-refreshed projection and view matrices, clearing
the matrix-dirty flag.  Consequently, after `set_fov x` changes the value
the projection-dirty flag is set (so the first query recomputes the
projection), and a second identical `set_fov x` after that query is a
no-op, so the next query recomputes nothing. -/
theorem claim_C3_lazy_recomputation (fns : ScalarFns α) (c : camera α) (x : α) :
    ((c.update fns).m_projection =
      if c.m_projection_dirty then c.compute_projection fns else c.m_projection) ∧
    ((c.update fns).m_projection_dirty = false) ∧
    ((c.update fns).m_view =
      if c.m_view_dirty then c.compute_view fns else c.m_view) ∧
    ((c.update fns).m_view_dirty = false) ∧
    ((c.update fns).m_matrix =
      if c.m_matrix_dirty then
        matrix_mult ((c.update fns).m_projection) ((c.update fns).m_view)
      else c.m_matrix) ∧
    ((c.update fns).m_matrix_dirty = false) ∧
    (c.m_fov ≠ x →
      ((c.set_fov x).m_projection_dirty = true ∧
        ((c.set_fov x).update fns).set_fov x = (c.set_fov x).update fns ∧
        (((c.set_fov x).update fns).update fns) = (c.set_fov x).update fns)) := by
  refine ⟨?_, ?_, ?_, ?_, ?_, ?_, fun h => ⟨?_, ?_, ?_⟩⟩
  · rw [camera.update_eq]
  · rw [camera.update_eq]
  · rw [camera.update_eq]
  · rw [camera.update_eq]
  · rw [camera.update_eq]
  · rw [camera.update_eq]
  · simp [camera.set_fov, h]
  · set u := (c.set_fov x).update fns with hu
    have hfov : u.m_fov = x := by
      rw [hu, camera.update_eq]
      simp [camera.set_fov, h]
    simp only [camera.set_fov, if_pos hfov]
  · exact camera.update_update fns (c.set_fov x)

/-- Witness for C3 at a concrete rational camera and a fov change. -/
theorem claim_C3_witness :
    camQ.m_fov ≠ 9 ∧
    ((camQ.set_fov 9).m_projection_dirty = true ∧
      ((camQ.set_fov 9).update ratFns).set_fov 9 = (camQ.set_fov 9).update ratFns ∧
      (((camQ.set_fov 9).update ratFns).update ratFns) = (camQ.set_fov 9).update ratFns) := by
  have h : camQ.m_fov ≠ 9 := by norm_num [camQ, camera.init, ratFns]
  exact ⟨h, (claim_C3_lazy_recomputation ratFns camQ 9).2.2.2.2.2.2 h⟩

omit [DecidableEq α] in
theorem cleanConsistent_of_dirty (c : camera α) (h : c.m_matrix_dirty = true) :
    c.CleanConsistent := by
  intro hm
  rw [h] at hm
  cases hm

theorem cleanConsistent_set_position (c : camera α) (pos : Fin 3 → α)
    (h : c.CleanConsistent) : (c.set_position pos).CleanConsistent := by
  unfold camera.set_position
  split
  · exact h
  · exact cleanConsistent_of_dirty _ rfl

omit [DecidableEq α] in
theorem cleanConsistent_update (fns : ScalarFns α) (c : camera α)
    (h : c.CleanConsistent) : (c.update fns).CleanConsistent := by
  intro _
  refine ⟨by rw [camera.update_eq], by rw [camera.update_eq], ?_⟩
  by_cases hm : c.m_matrix_dirty
  · rw [camera.update_eq]
    simp [hm]
  · obtain ⟨hp, hv, hmx⟩ := h (by simpa using hm)
    rw [camera.update_eq]
    simp [hm, hp, hv, hmx]

/-- Every camera state reachable by constructor, setter/mutator and query
calls satisfies the cache-consistency invariant. -/
theorem reachable_cleanConsistent (fns : ScalarFns α) (c : camera α)
    (h : camera.Reachable fns c) : c.CleanConsistent := by
  induction h with
  | init proj view mat => exact cleanConsistent_of_dirty _ rfl
  | mk_proj fov aspect nd fd proj view mat => exact cleanConsistent_of_dirty _ rfl
  | mk_full fov aspect nd fd pos dir up proj view mat =>
      exact cleanConsistent_of_dirty _ rfl
  | set_fov c fov hr ih =>
      unfold camera.set_fov
      split
      · exact ih
      · exact cleanConsistent_of_dirty _ rfl
  | set_aspect c aspect hr ih =>
      unfold camera.set_aspect
      split
      · exact ih
      · exact cleanConsistent_of_dirty _ rfl
  | set_near_distance c nd hr ih =>
      unfold camera.set_near_distance
      split
      · exact ih
      · exact cleanConsistent_of_dirty _ rfl
  | set_far_distance c fd hr ih =>
      unfold camera.set_far_distance
      split
      · exact ih
      · exact cleanConsistent_of_dirty _ rfl
  | set_position c pos hr ih => exact cleanConsistent_set_position c pos ih
  | set_direction c dir hr ih =>
      by_cases hc : c.m_direction = vector_normalize fns dir
      · simpa [camera.set_direction, hc] using ih
      · exact cleanConsistent_of_dirty _ (by simp [camera.set_direction, hc])
  | set_up c up hr ih =>
      by_cases hc : c.m_up = vector_normalize fns up
      · simpa [camera.set_up, hc] using ih
      · exact cleanConsistent_of_dirty _ (by simp [camera.set_up, hc])
  | move c offset hr ih => exact cleanConsistent_set_position c _ ih
  | move_relative c offset hr ih => exact cleanConsistent_set_position c _ ih
  | rotate c rotation hr ih => exact cleanConsistent_of_dirty _ rfl
  | rotate_axis_angle c axis angle hr ih => exact cleanConsistent_of_dirty _ rfl
  | set_orientation_taitbryan c yaw pitch roll hr ih => exact cleanConsistent_of_dirty _ rfl
  | query c hr ih => exact cleanConsistent_update fns c ih

/-- C10: `get_projection`, `get_view` and `get_matrix` all run the same
`update` routine, which refreshes every stale cached matrix; after any
single query all three dirty flags are clear, the cached combined matrix
equals the product of the cached projection and view matrices, and a
further query with no intervening mutation changes nothing. -/
theorem claim_C10_shared_update (fns : ScalarFns α) (c : camera α)
    (h : camera.Reachable fns c) :
    c.get_projection fns = (c.update fns).m_projection ∧
    c.get_view fns = (c.update fns).m_view ∧
    c.get_matrix fns = (c.update fns).m_matrix ∧
    (c.update fns).m_projection_dirty = false ∧
    (c.update fns).m_view_dirty = false ∧
    (c.update fns).m_matrix_dirty = false ∧
    (c.update fns).m_matrix =
      matrix_mult ((c.update fns).m_projection) ((c.update fns).m_view) ∧
    (c.update fns).update fns = c.update fns := by
  refine ⟨rfl, rfl, rfl, by rw [camera.update_eq], by rw [camera.update_eq],
    by rw [camera.update_eq], ?_, camera.update_update fns c⟩
  exact (reachable_cleanConsistent fns _ (camera.Reachable.query c h)
    (by rw [camera.update_eq])).2.2

/-- Witness for C10: a second query on a freshly queried default-constructed
rational camera changes nothing. -/
theorem claim_C10_witness :
    (camQ.update ratFns).update ratFns = camQ.update ratFns :=
  (claim_C10_shared_update ratFns camQ
    (camera.Reachable.init (fun _ => 0) (fun _ => 0) (fun _ => 0))).2.2.2.2.2.2.2

/-- C4: on every reachable camera state, `get_matrix()` is exactly the
`matrix_mult` product of `get_projection()` and `get_view()`. -/
theorem claim_C4_matrix_is_product (fns : ScalarFns α) (c : camera α)
    (h : camera.Reachable fns c) :
    c.get_matrix fns = matrix_mult (c.get_projection fns) (c.get_view fns) :=
  (reachable_cleanConsistent fns _ (camera.Reachable.query c h)
    (by rw [camera.update_eq])).2.2

/-- Witness for C4 at the default-constructed rational camera. -/
theorem claim_C4_witness :
    camQ.get_matrix ratFns = matrix_mult (camQ.get_projection ratFns) (camQ.get_view ratFns) :=
  claim_C4_matrix_is_product ratFns camQ
    (camera.Reachable.init (fun _ => 0) (fun _ => 0) (fun _ => 0))

theorem ownerInv_step (g : Nat) (w : HandleWorld) (op : MoveOp)
    (h : HandleWorld.OwnerInv g w) : HandleWorld.OwnerInv g (w.step op) := by
  obtain ⟨j, hj, hjg, hjm, hz, hlog⟩ := h
  cases op with
  | moveConstructFrom src =>
    by_cases hs : src < w.len
    · have hls : w.len ≠ src := Nat.ne_of_gt hs
      by_cases hsj : src = j
      · subst hsj
        refine ⟨w.len, ?_, ?_, ?_, ?_, ?_⟩
        · simp [HandleWorld.step, hs]
        · simpa [HandleWorld.step, hs, hls] using hjg
        · simp [HandleWorld.step, hs, hls]
        · intro k hk
          by_cases hks : k = src
          · simp [HandleWorld.step, hs, hks]
          · simp only [HandleWorld.step, hs, if_true, if_pos, if_neg hks, if_neg hk]
            exact hz k hks
        · simpa [HandleWorld.step, hs] using hlog
      · refine ⟨j, ?_, ?_, ?_, ?_, ?_⟩
        · simp [HandleWorld.step, hs]
          omega
        · have hjs : j ≠ src := fun h => hsj h.symm
          have hjl : j ≠ w.len := Nat.ne_of_lt hj
          simpa [HandleWorld.step, hs, hjs, hjl] using hjg
        · have hjs : j ≠ src := fun h => hsj h.symm
          have hjl : j ≠ w.len := Nat.ne_of_lt hj
          simpa [HandleWorld.step, hs, hjs, hjl] using hjm
        · intro k hk
          by_cases hks : k = src
          · simp [HandleWorld.step, hs, hks]
          · by_cases hkl : k = w.len
            · simpa [HandleWorld.step, hs, hks, hkl, hls] using hz src hsj
            · simpa [HandleWorld.step, hs, hks, hkl] using hz k hk
        · simpa [HandleWorld.step, hs] using hlog
    · simpa [HandleWorld.step, hs] using ⟨j, hj, hjg, hjm, hz, hlog⟩
  | moveAssign target src =>
    by_cases hts : target < w.len ∧ src < w.len
    · have hlen : (w.step (.moveAssign target src)).len = w.len := by
        simp [HandleWorld.step, hts]
      have hnames : ∀ k, (w.step (.moveAssign target src)).names k =
          if k = target then w.names src else if k = src then w.names target
          else w.names k := by
        intro k
        simp [HandleWorld.step, hts]
      have hmf : ∀ k, (w.step (.moveAssign target src)).mfCons k =
          if k = target then false else if k = src then false else w.mfCons k := by
        intro k
        simp [HandleWorld.step, hts]
      have hlog2 : (w.step (.moveAssign target src)).destroyLog = w.destroyLog := by
        simp [HandleWorld.step, hts]
      by_cases h1 : j = src
      · refine ⟨target, by omega, ?_, ?_, ?_, by rw [hlog2]; exact hlog⟩
        · rw [hnames, if_pos rfl, ← h1]
          exact hjg
        · rw [hmf, if_pos rfl]
        · intro k hk
          rw [hnames, if_neg hk]
          by_cases hks : k = src
          · rw [if_pos hks]
            exact hz target (by omega)
          · rw [if_neg hks]
            exact hz k (by omega)
      · by_cases h2 : j = target
        · have hst : ¬ src = target := by omega
          refine ⟨src, by omega, ?_, ?_, ?_, by rw [hlog2]; exact hlog⟩
          · rw [hnames, if_neg hst, if_pos rfl, ← h2]
            exact hjg
          · rw [hmf, if_neg hst, if_pos rfl]
          · intro k hk
            rw [hnames]
            by_cases hkt : k = target
            · rw [if_pos hkt]
              exact hz src (by omega)
            · rw [if_neg hkt, if_neg hk]
              exact hz k (by omega)
        · refine ⟨j, by omega, ?_, ?_, ?_, by rw [hlog2]; exact hlog⟩
          · rw [hnames, if_neg h2, if_neg h1]
            exact hjg
          · rw [hmf, if_neg h2, if_neg h1]
            exact hjm
          · intro k hk
            rw [hnames]
            by_cases hkt : k = target
            · rw [if_pos hkt]
              exact hz src (by omega)
            · rw [if_neg hkt]
              by_cases hks : k = src
              · rw [if_pos hks]
                exact hz target (by omega)
              · rw [if_neg hks]
                exact hz k hk
    · simpa [HandleWorld.step, hts] using ⟨j, hj, hjg, hjm, hz, hlog⟩

theorem ownerInv_foldl (g : Nat) (ops : List MoveOp) :
    ∀ w, HandleWorld.OwnerInv g w → HandleWorld.OwnerInv g (ops.foldl HandleWorld.step w) := by
  induction ops with
  | nil => intro w h; simpa using h
  | cons op rest ih =>
      intro w h
      rw [List.foldl_cons]
      exact ih _ (ownerInv_step g w op h)

theorem ownerInv_run (g : Nat) (ops : List MoveOp) :
    HandleWorld.OwnerInv g (HandleWorld.run g ops) := by
  refine ownerInv_foldl g ops _ ⟨0, ?_, ?_, ?_, ?_, ?_⟩
  · simp [HandleWorld.start]
  · simp [HandleWorld.start]
  · simp [HandleWorld.start]
  · intro k hk
    simp [HandleWorld.start, hk]
  · rfl

theorem count_map_range_eq_one (g : Nat) (hg : g ≠ 0) (n j : Nat) (f : Nat → Nat)
    (hj : j < n) (hfj : f j = g) (hz : ∀ k, k ≠ j → f k = 0) :
    ((List.range n).map f).count g = 1 := by
  induction n with
  | zero => omega
  | succ n ih =>
      rw [List.range_succ, List.map_append, List.count_append]
      by_cases hjn : j = n
      · subst hjn
        have h0 : ((List.range j).map f).count g = 0 := by
          rw [List.count_eq_zero]
          intro hmem
          obtain ⟨k, hk, hkg⟩ := List.mem_map.mp hmem
          have hkj : k ≠ j := Nat.ne_of_lt (List.mem_range.mp hk)
          rw [hz k hkj] at hkg
          exact hg hkg.symm
        have h1 : (List.map f [j]).count g = 1 := by
          simp [hfj]
        omega
      · have hn : f n = 0 := hz n (fun h => hjn h.symm)
        have h1 : ((List.range n).map f).count g = 1 := ih (by omega)
        have h2 : (List.map f [n]).count g = 0 := by
          rw [List.count_eq_zero]
          intro hmem
          obtain ⟨k, hk, hkg⟩ := List.mem_map.mp hmem
          have hk' : k = n := by simpa using hk
          rw [hk', hn] at hkg
          exact hg hkg.symm
        omega

/-- C2 as stated is refuted by a two-step sequence: construct a handle
(identifier 42), move-construct a second handle from it, then move-assign
the first from the second.  The swap hands identifier 42 back to the first
handle, which is moved-from (it was the source of the move-assignment) yet
reports `name() = 42`, not the sentinel `0`. -/
theorem claim_C2_counterexample : ¬ ClaimC2 := fun h =>
  absurd
    ((h 42 (by decide) [.moveConstructFrom 0, .moveAssign 1 0]).2 0 (by decide))
    (by decide)

/-- C2 amended: across any sequence of move-constructions and
move-assignments from a single constructed handle, destroying all handles
invokes the destroy operation with the originally generated identifier
exactly once; the move operations themselves invoke no destroy operation;
any handle moved-from by move-construction (and untouched by a later
move-assignment) reports the sentinel `0`; and move-assignment exchanges
the two handles' identifiers (a handle moved-from by move-assignment holds
the target's previous identifier, which may be nonzero). -/
theorem claim_C2_amended (g : Nat) (hg : g ≠ 0) (ops : List MoveOp) :
    ((HandleWorld.run g ops).destroyAll.count g = 1) ∧
    ((HandleWorld.run g ops).destroyLog = []) ∧
    (∀ k, (HandleWorld.run g ops).mfCons k = true → (HandleWorld.run g ops).names k = 0) ∧
    (∀ (w : HandleWorld) (target src : Nat), target < w.len → src < w.len →
      (w.step (.moveAssign target src)).names target = w.names src ∧
      (src ≠ target → (w.step (.moveAssign target src)).names src = w.names target) ∧
      (w.step (.moveAssign target src)).destroyLog = w.destroyLog) := by
  obtain ⟨j, hj, hjg, hjm, hz, hlog⟩ := ownerInv_run g ops
  refine ⟨?_, hlog, ?_, ?_⟩
  · unfold HandleWorld.destroyAll
    rw [hlog, List.nil_append]
    exact count_map_range_eq_one g hg _ j _ hj hjg hz
  · intro k hk
    by_cases hkj : k = j
    · rw [hkj] at hk
      rw [hjm] at hk
      cases hk
    · exact hz k hkj
  · intro w target src ht hs
    refine ⟨?_, ?_, ?_⟩
    · simp [HandleWorld.step, ht, hs]
    · intro hst
      simp [HandleWorld.step, ht, hs, hst]
    · simp [HandleWorld.step, ht, hs]

omit [Field α] in
theorem camera.set_position_fields (c : camera α) (p : Fin 3 → α) :
    (c.set_position p).m_position = p ∧
    (c.set_position p).m_direction = c.m_direction ∧
    (c.set_position p).m_up = c.m_up := by
  unfold camera.set_position
  split
  next h => exact ⟨h, rfl, rfl⟩
  next h => exact ⟨rfl, rfl, rfl⟩

/-- The position stored by `move_relative`, with the camera-space delta
spelled out componentwise. -/
theorem camera.move_relative_m_position (fns : ScalarFns α) (c : camera α)
    (offset : Fin 3 → α) :
    (c.move_relative fns offset).m_position =
      ![c.m_position 0 +
          (-c.m_direction 0 * offset 2 +
            (c.m_up 0 * offset 1 -
              vector_normalize fns (vector_cross c.m_direction c.m_up) 0 * offset 0)),
        c.m_position 1 +
          (-c.m_direction 1 * offset 2 +
            (c.m_up 1 * offset 1 -
              vector_normalize fns (vector_cross c.m_direction c.m_up) 1 * offset 0)),
        c.m_position 2 +
          (-c.m_direction 2 * offset 2 +
            (c.m_up 2 * offset 1 -
              vector_normalize fns (vector_cross c.m_direction c.m_up) 2 * offset 0))] :=
  (camera.set_position_fields c _).1

/-- C1 corrected: `move_relative(offset)` changes the position by
`- offset[0] * right + offset[1] * up - offset[2] * direction` with
`right = normalize(cross(direction, up))` — the first component moves the
camera along the negated right vector — and leaves direction and up
unchanged. -/
theorem claim_C1_amended_move_relative (fns : ScalarFns α) (c : camera α)
    (offset : Fin 3 → α) :
    ((c.move_relative fns offset).m_position = fun i =>
      c.m_position i
        - offset 0 * vector_normalize fns (vector_cross c.m_direction c.m_up) i
        + offset 1 * c.m_up i
        - offset 2 * c.m_direction i) ∧
    (c.move_relative fns offset).m_direction = c.m_direction ∧
    (c.move_relative fns offset).m_up = c.m_up := by
  refine ⟨?_, (camera.set_position_fields c _).2.1, (camera.set_position_fields c _).2.2⟩
  rw [camera.move_relative_m_position]
  funext i
  fin_cases i <;>
    · simp [Matrix.cons_val_zero, Matrix.cons_val_one, Matrix.head_cons,
        Matrix.cons_val_two, Matrix.tail_cons]
      try ring

/-- C1 as stated is false on the code: at the default camera (direction
`(0,0,-1)`, up `(0,1,0)`, right `(1,0,0)`) and offset `(1,0,0)`, the code
moves the position to `-1` along the x-axis, not `+1`: `move_relative`
subtracts `right * offset[0]` instead of adding it. -/
theorem claim_C1_counterexample : ¬ ClaimC1 := by
  intro h
  have hcross : vector_cross camR.m_direction camR.m_up = ![1, 0, 0] := by
    funext i
    fin_cases i
    · show (0 : ℝ) * 0 - (-1) * 1 = 1
      norm_num
    · show (-1 : ℝ) * 0 - 0 * 0 = 0
      norm_num
    · show (0 : ℝ) * 1 - 0 * 0 = 0
      norm_num
  have hne : vector_cross camR.m_direction camR.m_up ≠ 0 := by
    rw [hcross]
    intro h0
    have h00 := congrFun h0 0
    norm_num at h00
  have hright : vector_normalize realFns (vector_cross camR.m_direction camR.m_up) 0 = 1 := by
    rw [hcross]
    show (1 : ℝ) / Real.sqrt (1 * 1 + 0 * 0 + 0 * 0) = 1
    norm_num [Real.sqrt_one]
  have h1 := congrFun ((h camR ![1, 0, 0] hne).1) 0
  rw [camera.move_relative_m_position] at h1
  simp only [Matrix.cons_val_zero] at h1
  rw [hright] at h1
  norm_num [camR, camera.init, realFns] at h1

omit [DecidableEq α] in
/-- C5: `set_orientation_taitbryan(0, 0, 0)` restores the canonical
reference frame: direction `(0, 0, -1)` and up `(0, 1, 0)`, for any math
functions with `sin 0 = 0`, `cos 0 = 1` and `sqrt 1 = 1` (as the real
functions have). -/
theorem claim_C5_taitbryan_zero_identity (fns : ScalarFns α) (c : camera α)
    (hsin : fns.sin 0 = 0) (hcos : fns.cos 0 = 1) (hsqrt : fns.sqrt 1 = 1) :
    (c.set_orientation_taitbryan fns 0 0 0).m_direction = ![0, 0, -1] ∧
    (c.set_orientation_taitbryan fns 0 0 0).m_up = ![0, 1, 0] := by
  have e1 : fns.sin (-(0 : α) / 2) = 0 := by rw [neg_zero, zero_div, hsin]
  have e2 : fns.cos (-(0 : α) / 2) = 1 := by rw [neg_zero, zero_div, hcos]
  have e3 : fns.sin ((0 : α) / 2) = 0 := by rw [zero_div, hsin]
  have e4 : fns.cos ((0 : α) / 2) = 1 := by rw [zero_div, hcos]
  have hd1 : camera.tb_direction1 fns 0 = ![0, 0, -1, 0] := by
    unfold camera.tb_direction1
    rw [e1, e2]
    have hq : quaternion_multiply (quaternion_multiply ![(0 : α), 0, 0, 1] ![0, 0, -1, 0])
        (quaternion_conjugate ![(0 : α), 0, 0, 1]) = ![0, 0, -1, 0] := by
      funext i
      fin_cases i <;> simp [quaternion_multiply, quaternion_conjugate]
    rw [hq]
    funext i
    fin_cases i <;> simp [quaternion_normalize, quaternion_length, hsqrt]
  have hr : camera.tb_right fns 0 = ![-1, 0, 0] := by
    unfold camera.tb_right
    rw [hd1]
    funext i
    fin_cases i <;> simp [vector_normalize, vector_length, vector_cross, hsqrt]
  have hp : camera.tb_pitch_rotation fns 0 0 = ![0, 0, 0, 1] := by
    unfold camera.tb_pitch_rotation
    rw [hr, e3, e4]
    funext i
    fin_cases i <;> simp
  have hd2 : camera.tb_direction2 fns 0 0 = ![0, 0, -1, 0] := by
    unfold camera.tb_direction2
    rw [hp, hd1]
    funext i
    fin_cases i <;> simp [quaternion_multiply, quaternion_conjugate]
  have hnd : camera.tb_new_direction fns 0 0 = ![0, 0, -1] := by
    unfold camera.tb_new_direction
    rw [hd2]
    funext i
    fin_cases i <;> simp [vector_normalize, vector_length, hsqrt]
  have huv : camera.tb_up_vector fns 0 0 = ![0, 1, 0] := by
    unfold camera.tb_up_vector
    rw [hnd, hr]
    funext i
    fin_cases i <;> simp [vector_normalize, vector_length, vector_cross, hsqrt]
  have hrr : camera.tb_roll_rotation fns 0 0 0 = ![0, 0, 0, 1] := by
    unfold camera.tb_roll_rotation
    rw [hnd, e3, e4]
    funext i
    fin_cases i <;> simp
  have huq : camera.tb_up_quaternion fns 0 0 0 = ![0, 1, 0, 0] := by
    unfold camera.tb_up_quaternion
    rw [hrr, huv]
    funext i
    fin_cases i <;> simp [quaternion_multiply, quaternion_conjugate]
  constructor
  · show camera.tb_new_direction fns 0 0 = ![0, 0, -1]
    exact hnd
  · show vector_normalize fns
      ![camera.tb_up_quaternion fns 0 0 0 0, camera.tb_up_quaternion fns 0 0 0 1,
        camera.tb_up_quaternion fns 0 0 0 2] = ![0, 1, 0]
    rw [huq]
    funext i
    fin_cases i <;> simp [vector_normalize, vector_length, hsqrt]

/-- Witness for C5: the rational instantiation at the default camera. -/
theorem claim_C5_witness :
    ratFns.sin 0 = 0 ∧ ratFns.cos 0 = 1 ∧ ratFns.sqrt 1 = 1 ∧
    (camQ.set_orientation_taitbryan ratFns 0 0 0).m_direction = ![0, 0, -1] ∧
    (camQ.set_orientation_taitbryan ratFns 0 0 0).m_up = ![0, 1, 0] :=
  ⟨rfl, rfl, rfl,
    (claim_C5_taitbryan_zero_identity ratFns camQ rfl rfl rfl).1,
    (claim_C5_taitbryan_zero_identity ratFns camQ rfl rfl rfl).2⟩

/-- C6: for a camera constructed with fov `π/2`, aspect `1`, near `0.1`
and far `100`, the projection matrix returned by `get_projection` has its
flattened entries 0 and 5 equal to `1`, since `1 / tan(π/4) = 1`. -/
theorem claim_C6_projection_diagonal :
    ((camera.mk_proj (Real.pi / 2) 1 (1 / 10) 100
        (fun _ => 0) (fun _ => 0) (fun _ => 0)).get_projection realFns) 0 = 1 ∧
    ((camera.mk_proj (Real.pi / 2) 1 (1 / 10) 100
        (fun _ => 0) (fun _ => 0) (fun _ => 0)).get_projection realFns) 5 = 1 := by
  have h : Real.tan (Real.pi / 2 / 2) = 1 := by
    rw [show Real.pi / 2 / 2 = Real.pi / 4 by ring, Real.tan_pi_div_four]
  constructor
  · show (1 : ℝ) / (1 * Real.tan (Real.pi / 2 / 2)) = 1
    rw [h]
    norm_num
  · show (1 : ℝ) / Real.tan (Real.pi / 2 / 2) = 1
    rw [h]
    norm_num

theorem vec3_normSq_pos (v : Fin 3 → ℝ) (hv : v ≠ 0) :
    0 < v 0 * v 0 + v 1 * v 1 + v 2 * v 2 := by
  have hex : v 0 ≠ 0 ∨ v 1 ≠ 0 ∨ v 2 ≠ 0 := by
    by_contra hno
    push_neg at hno
    obtain ⟨h0, h1, h2⟩ := hno
    apply hv
    funext i
    fin_cases i
    · simpa using h0
    · simpa using h1
    · simpa using h2
  rcases hex with h | h | h <;>
    nlinarith [mul_self_nonneg (v 0), mul_self_nonneg (v 1), mul_self_nonneg (v 2),
      mul_self_pos.mpr h]

theorem vec3_ne_zero_of_normSq_pos (v : Fin 3 → ℝ)
    (h : 0 < v 0 * v 0 + v 1 * v 1 + v 2 * v 2) : v ≠ 0 := by
  intro h0
  rw [h0] at h
  simp at h

theorem quat4_normSq_pos (q : Fin 4 → ℝ) (hq : q ≠ 0) :
    0 < q 0 * q 0 + q 1 * q 1 + q 2 * q 2 + q 3 * q 3 := by
  have hex : q 0 ≠ 0 ∨ q 1 ≠ 0 ∨ q 2 ≠ 0 ∨ q 3 ≠ 0 := by
    by_contra hno
    push_neg at hno
    obtain ⟨h0, h1, h2, h3⟩ := hno
    apply hq
    funext i
    fin_cases i
    · simpa using h0
    · simpa using h1
    · simpa using h2
    · simpa using h3
  rcases hex with h | h | h | h <;>
    nlinarith [mul_self_nonneg (q 0), mul_self_nonneg (q 1), mul_self_nonneg (q 2),
      mul_self_nonneg (q 3), mul_self_pos.mpr h]

/-- Length-squared of a rational-quaternion product: the four-square
(Euler) identity satisfied by `camera::quaternion_multiply`. -/
theorem qmul_normSq (q r : Fin 4 → ℝ) :
    quaternion_multiply q r 0 * quaternion_multiply q r 0 +
      quaternion_multiply q r 1 * quaternion_multiply q r 1 +
      quaternion_multiply q r 2 * quaternion_multiply q r 2 +
      quaternion_multiply q r 3 * quaternion_multiply q r 3 =
    (q 0 * q 0 + q 1 * q 1 + q 2 * q 2 + q 3 * q 3) *
      (r 0 * r 0 + r 1 * r 1 + r 2 * r 2 + r 3 * r 3) := by
  simp only [quaternion_multiply, Matrix.cons_val_zero, Matrix.cons_val_one,
    Matrix.cons_val_two, Matrix.cons_val_three, Matrix.head_cons, Matrix.tail_cons]
  ring

theorem qconj_normSq (q : Fin 4 → ℝ) :
    quaternion_conjugate q 0 * quaternion_conjugate q 0 +
      quaternion_conjugate q 1 * quaternion_conjugate q 1 +
      quaternion_conjugate q 2 * quaternion_conjugate q 2 +
      quaternion_conjugate q 3 * quaternion_conjugate q 3 =
    q 0 * q 0 + q 1 * q 1 + q 2 * q 2 + q 3 * q 3 := by
  simp only [quaternion_conjugate, Matrix.cons_val_zero, Matrix.cons_val_one,
    Matrix.cons_val_two, Matrix.cons_val_three, Matrix.head_cons, Matrix.tail_cons]
  ring

/-- Length-squared of the quaternion sandwich `q * v * conj(q)`. -/
theorem sandwich_normSq (q v : Fin 4 → ℝ) :
    quaternion_multiply (quaternion_multiply q v) (quaternion_conjugate q) 0 *
        quaternion_multiply (quaternion_multiply q v) (quaternion_conjugate q) 0 +
      quaternion_multiply (quaternion_multiply q v) (quaternion_conjugate q) 1 *
        quaternion_multiply (quaternion_multiply q v) (quaternion_conjugate q) 1 +
      quaternion_multiply (quaternion_multiply q v) (quaternion_conjugate q) 2 *
        quaternion_multiply (quaternion_multiply q v) (quaternion_conjugate q) 2 +
      quaternion_multiply (quaternion_multiply q v) (quaternion_conjugate q) 3 *
        quaternion_multiply (quaternion_multiply q v) (quaternion_conjugate q) 3 =
    (q 0 * q 0 + q 1 * q 1 + q 2 * q 2 + q 3 * q 3) *
      ((q 0 * q 0 + q 1 * q 1 + q 2 * q 2 + q 3 * q 3) *
        (v 0 * v 0 + v 1 * v 1 + v 2 * v 2 + v 3 * v 3)) := by
  rw [qmul_normSq (quaternion_multiply q v) (quaternion_conjugate q), qmul_normSq q v,
    qconj_normSq q]
  ring

/-- The real part of the quaternion sandwich scales the real part of the
sandwiched quaternion by the length-squared of the rotation quaternion. -/
theorem sandwich_w (q v : Fin 4 → ℝ) :
    quaternion_multiply (quaternion_multiply q v) (quaternion_conjugate q) 3 =
      (q 0 * q 0 + q 1 * q 1 + q 2 * q 2 + q 3 * q 3) * v 3 := by
  simp only [quaternion_multiply, quaternion_conjugate, Matrix.cons_val_zero,
    Matrix.cons_val_one, Matrix.cons_val_two, Matrix.cons_val_three, Matrix.head_cons,
    Matrix.tail_cons]
  ring

/-- Length-squared of the vector part of the quaternion sandwich. -/
theorem sandwich_vec_normSq (q v : Fin 4 → ℝ) :
    quaternion_multiply (quaternion_multiply q v) (quaternion_conjugate q) 0 *
        quaternion_multiply (quaternion_multiply q v) (quaternion_conjugate q) 0 +
      quaternion_multiply (quaternion_multiply q v) (quaternion_conjugate q) 1 *
        quaternion_multiply (quaternion_multiply q v) (quaternion_conjugate q) 1 +
      quaternion_multiply (quaternion_multiply q v) (quaternion_conjugate q) 2 *
        quaternion_multiply (quaternion_multiply q v) (quaternion_conjugate q) 2 =
    (q 0 * q 0 + q 1 * q 1 + q 2 * q 2 + q 3 * q 3) *
      ((q 0 * q 0 + q 1 * q 1 + q 2 * q 2 + q 3 * q 3) *
        (v 0 * v 0 + v 1 * v 1 + v 2 * v 2)) := by
  have h1 := sandwich_normSq q v
  have h2 := sandwich_w q v
  linear_combination h1 -
    (quaternion_multiply (quaternion_multiply q v) (quaternion_conjugate q) 3 +
      (q 0 * q 0 + q 1 * q 1 + q 2 * q 2 + q 3 * q 3) * v 3) * h2

/-- Lagrange identity for `camera::vector_cross`. -/
theorem cross_normSq (v w : Fin 3 → ℝ) :
    vector_cross v w 0 * vector_cross v w 0 + vector_cross v w 1 * vector_cross v w 1 +
      vector_cross v w 2 * vector_cross v w 2 =
    (v 0 * v 0 + v 1 * v 1 + v 2 * v 2) * (w 0 * w 0 + w 1 * w 1 + w 2 * w 2) -
      (v 0 * w 0 + v 1 * w 1 + v 2 * w 2) * (v 0 * w 0 + v 1 * w 1 + v 2 * w 2) := by
  simp only [vector_cross, Matrix.cons_val_zero, Matrix.cons_val_one, Matrix.cons_val_two,
    Matrix.head_cons, Matrix.tail_cons]
  ring

/-- Conjugating by the quaternion `(a*s, c)` scales the dot product of the
sandwiched vector with the axis `a` by the quaternion's length-squared. -/
theorem sandwich_axis_dot (a : Fin 3 → ℝ) (s c : ℝ) (v : Fin 4 → ℝ) :
    quaternion_multiply
        (quaternion_multiply ![a 0 * s, a 1 * s, a 2 * s, c] v)
        (quaternion_conjugate ![a 0 * s, a 1 * s, a 2 * s, c]) 0 * a 0 +
      quaternion_multiply
        (quaternion_multiply ![a 0 * s, a 1 * s, a 2 * s, c] v)
        (quaternion_conjugate ![a 0 * s, a 1 * s, a 2 * s, c]) 1 * a 1 +
      quaternion_multiply
        (quaternion_multiply ![a 0 * s, a 1 * s, a 2 * s, c] v)
        (quaternion_conjugate ![a 0 * s, a 1 * s, a 2 * s, c]) 2 * a 2 =
    ((a 0 * a 0 + a 1 * a 1 + a 2 * a 2) * (s * s) + c * c) *
      (v 0 * a 0 + v 1 * a 1 + v 2 * a 2) := by
  simp only [quaternion_multiply, quaternion_conjugate, Matrix.cons_val_zero,
    Matrix.cons_val_one, Matrix.cons_val_two, Matrix.cons_val_three, Matrix.head_cons,
    Matrix.tail_cons]
  ring

theorem vector_length_of_normSq_one (v : Fin 3 → ℝ)
    (h : v 0 * v 0 + v 1 * v 1 + v 2 * v 2 = 1) : vector_length realFns v = 1 := by
  simp [vector_length, realFns, h]

theorem vector_normalize_of_normSq_one (v : Fin 3 → ℝ)
    (h : v 0 * v 0 + v 1 * v 1 + v 2 * v 2 = 1) : vector_normalize realFns v = v := by
  funext i
  fin_cases i <;>
    simp [vector_normalize, vector_length, realFns, h, Matrix.cons_val_zero,
      Matrix.cons_val_one, Matrix.cons_val_two, Matrix.head_cons, Matrix.tail_cons]

theorem quaternion_normalize_of_normSq_one (q : Fin 4 → ℝ)
    (h : q 0 * q 0 + q 1 * q 1 + q 2 * q 2 + q 3 * q 3 = 1) :
    quaternion_normalize realFns q = q := by
  funext i
  fin_cases i <;>
    simp [quaternion_normalize, quaternion_length, realFns, h, Matrix.cons_val_zero,
      Matrix.cons_val_one, Matrix.cons_val_two, Matrix.cons_val_three, Matrix.head_cons,
      Matrix.tail_cons]

theorem vector_length_normalize_eq_one (v : Fin 3 → ℝ) (hv : v ≠ 0) :
    vector_length realFns (vector_normalize realFns v) = 1 := by
  have hs := vec3_normSq_pos v hv
  have hL0 : Real.sqrt (v 0 * v 0 + v 1 * v 1 + v 2 * v 2) ≠ 0 :=
    ne_of_gt (Real.sqrt_pos.mpr hs)
  simp only [vector_length, vector_normalize, realFns, Matrix.cons_val_zero,
    Matrix.cons_val_one, Matrix.cons_val_two, Matrix.head_cons, Matrix.tail_cons]
  rw [show v 0 / Real.sqrt (v 0 * v 0 + v 1 * v 1 + v 2 * v 2) *
        (v 0 / Real.sqrt (v 0 * v 0 + v 1 * v 1 + v 2 * v 2)) +
      v 1 / Real.sqrt (v 0 * v 0 + v 1 * v 1 + v 2 * v 2) *
        (v 1 / Real.sqrt (v 0 * v 0 + v 1 * v 1 + v 2 * v 2)) +
      v 2 / Real.sqrt (v 0 * v 0 + v 1 * v 1 + v 2 * v 2) *
        (v 2 / Real.sqrt (v 0 * v 0 + v 1 * v 1 + v 2 * v 2)) = 1 from by
    field_simp]
  exact Real.sqrt_one

theorem realFns_sqrt : realFns.sqrt = Real.sqrt :=
  rfl

theorem realFns_sin : realFns.sin = Real.sin :=
  rfl

theorem realFns_cos : realFns.cos = Real.cos :=
  rfl

theorem sin_self_add_cos_self (x : ℝ) :
    Real.sin x * Real.sin x + Real.cos x * Real.cos x = 1 := by
  linear_combination Real.sin_sq_add_cos_sq x

/-- The yaw sandwich on the canonical direction, in closed form. -/
theorem tb_yaw_sandwich (s c : ℝ) :
    quaternion_multiply (quaternion_multiply ![0, s, 0, c] ![0, 0, -1, 0])
      (quaternion_conjugate ![0, s, 0, c]) = ![-(2 * s * c), 0, s * s - c * c, 0] := by
  funext i
  fin_cases i <;>
  · simp only [quaternion_multiply, quaternion_conjugate, Matrix.cons_val_zero,
      Matrix.cons_val_one, Matrix.cons_val_two, Matrix.cons_val_three, Matrix.head_cons,
      Matrix.tail_cons]
    ring

/-- The direction after the yaw block of `set_orientation_taitbryan`, in
closed form. -/
theorem tb_direction1_eq (yaw : ℝ) :
    camera.tb_direction1 realFns yaw =
      ![-(2 * Real.sin (-yaw / 2) * Real.cos (-yaw / 2)), 0,
        Real.sin (-yaw / 2) * Real.sin (-yaw / 2) -
          Real.cos (-yaw / 2) * Real.cos (-yaw / 2), 0] := by
  have hsc := sin_self_add_cos_self (-yaw / 2)
  unfold camera.tb_direction1
  rw [realFns_sin, realFns_cos, tb_yaw_sandwich]
  refine quaternion_normalize_of_normSq_one _ ?_
  simp only [Matrix.cons_val_zero, Matrix.cons_val_one, Matrix.cons_val_two,
    Matrix.cons_val_three, Matrix.head_cons, Matrix.tail_cons]
  linear_combination (Real.sin (-yaw / 2) * Real.sin (-yaw / 2) +
    Real.cos (-yaw / 2) * Real.cos (-yaw / 2) + 1) * hsc

theorem tb_direction1_vecSq (yaw : ℝ) :
    camera.tb_direction1 realFns yaw 0 * camera.tb_direction1 realFns yaw 0 +
      camera.tb_direction1 realFns yaw 1 * camera.tb_direction1 realFns yaw 1 +
      camera.tb_direction1 realFns yaw 2 * camera.tb_direction1 realFns yaw 2 = 1 := by
  have hsc := sin_self_add_cos_self (-yaw / 2)
  rw [tb_direction1_eq]
  simp only [Matrix.cons_val_zero, Matrix.cons_val_one, Matrix.cons_val_two,
    Matrix.head_cons, Matrix.tail_cons]
  linear_combination (Real.sin (-yaw / 2) * Real.sin (-yaw / 2) +
    Real.cos (-yaw / 2) * Real.cos (-yaw / 2) + 1) * hsc

theorem tb_cross_up (x y z : ℝ) :
    vector_cross ![0, 1, 0] ![x, y, z] = ![z, 0, -x] := by
  funext i
  fin_cases i <;>
  · simp only [vector_cross, Matrix.cons_val_zero, Matrix.cons_val_one,
      Matrix.cons_val_two, Matrix.head_cons, Matrix.tail_cons]
    ring

/-- The `right` vector of `set_orientation_taitbryan`, in closed form. -/
theorem tb_right_eq (yaw : ℝ) :
    camera.tb_right realFns yaw =
      ![Real.sin (-yaw / 2) * Real.sin (-yaw / 2) -
          Real.cos (-yaw / 2) * Real.cos (-yaw / 2), 0,
        2 * Real.sin (-yaw / 2) * Real.cos (-yaw / 2)] := by
  have hsc := sin_self_add_cos_self (-yaw / 2)
  unfold camera.tb_right
  rw [tb_direction1_eq]
  simp only [Matrix.cons_val_zero, Matrix.cons_val_one, Matrix.cons_val_two,
    Matrix.cons_val_three, Matrix.head_cons, Matrix.tail_cons]
  rw [tb_cross_up]
  rw [vector_normalize_of_normSq_one _ (by
    simp only [Matrix.cons_val_zero, Matrix.cons_val_one, Matrix.cons_val_two,
      Matrix.head_cons, Matrix.tail_cons]
    linear_combination (Real.sin (-yaw / 2) * Real.sin (-yaw / 2) +
      Real.cos (-yaw / 2) * Real.cos (-yaw / 2) + 1) * hsc)]
  funext i
  fin_cases i <;>
  · simp only [Matrix.cons_val_zero, Matrix.cons_val_one, Matrix.cons_val_two,
      Matrix.head_cons, Matrix.tail_cons]
    ring

theorem tb_right_normSq (yaw : ℝ) :
    camera.tb_right realFns yaw 0 * camera.tb_right realFns yaw 0 +
      camera.tb_right realFns yaw 1 * camera.tb_right realFns yaw 1 +
      camera.tb_right realFns yaw 2 * camera.tb_right realFns yaw 2 = 1 := by
  have hsc := sin_self_add_cos_self (-yaw / 2)
  rw [tb_right_eq]
  simp only [Matrix.cons_val_zero, Matrix.cons_val_one, Matrix.cons_val_two,
    Matrix.head_cons, Matrix.tail_cons]
  linear_combination (Real.sin (-yaw / 2) * Real.sin (-yaw / 2) +
    Real.cos (-yaw / 2) * Real.cos (-yaw / 2) + 1) * hsc

theorem tb_dot_d1_right (yaw : ℝ) :
    camera.tb_direction1 realFns yaw 0 * camera.tb_right realFns yaw 0 +
      camera.tb_direction1 realFns yaw 1 * camera.tb_right realFns yaw 1 +
      camera.tb_direction1 realFns yaw 2 * camera.tb_right realFns yaw 2 = 0 := by
  rw [tb_direction1_eq, tb_right_eq]
  simp only [Matrix.cons_val_zero, Matrix.cons_val_one, Matrix.cons_val_two,
    Matrix.head_cons, Matrix.tail_cons]
  ring

theorem tb_pitch_rotation_normSq (yaw pitch : ℝ) :
    camera.tb_pitch_rotation realFns yaw pitch 0 * camera.tb_pitch_rotation realFns yaw pitch 0 +
      camera.tb_pitch_rotation realFns yaw pitch 1 *
        camera.tb_pitch_rotation realFns yaw pitch 1 +
      camera.tb_pitch_rotation realFns yaw pitch 2 *
        camera.tb_pitch_rotation realFns yaw pitch 2 +
      camera.tb_pitch_rotation realFns yaw pitch 3 *
        camera.tb_pitch_rotation realFns yaw pitch 3 = 1 := by
  have hr := tb_right_normSq yaw
  have hpc := sin_self_add_cos_self (pitch / 2)
  simp only [camera.tb_pitch_rotation, realFns_sin, realFns_cos, Matrix.cons_val_zero,
    Matrix.cons_val_one, Matrix.cons_val_two, Matrix.cons_val_three, Matrix.head_cons,
    Matrix.tail_cons]
  linear_combination (Real.sin (pitch / 2) * Real.sin (pitch / 2)) * hr + hpc

theorem tb_direction2_vecSq (yaw pitch : ℝ) :
    camera.tb_direction2 realFns yaw pitch 0 * camera.tb_direction2 realFns yaw pitch 0 +
      camera.tb_direction2 realFns yaw pitch 1 * camera.tb_direction2 realFns yaw pitch 1 +
      camera.tb_direction2 realFns yaw pitch 2 * camera.tb_direction2 realFns yaw pitch 2 =
      1 := by
  simp only [camera.tb_direction2]
  rw [sandwich_vec_normSq]
  rw [tb_pitch_rotation_normSq, tb_direction1_vecSq]
  norm_num

theorem tb_new_direction_eq (yaw pitch : ℝ) :
    camera.tb_new_direction realFns yaw pitch =
      ![camera.tb_direction2 realFns yaw pitch 0, camera.tb_direction2 realFns yaw pitch 1,
        camera.tb_direction2 realFns yaw pitch 2] := by
  unfold camera.tb_new_direction
  refine vector_normalize_of_normSq_one _ ?_
  simp only [Matrix.cons_val_zero, Matrix.cons_val_one, Matrix.cons_val_two,
    Matrix.head_cons, Matrix.tail_cons]
  exact tb_direction2_vecSq yaw pitch

theorem tb_new_direction_normSq (yaw pitch : ℝ) :
    camera.tb_new_direction realFns yaw pitch 0 * camera.tb_new_direction realFns yaw pitch 0 +
      camera.tb_new_direction realFns yaw pitch 1 *
        camera.tb_new_direction realFns yaw pitch 1 +
      camera.tb_new_direction realFns yaw pitch 2 *
        camera.tb_new_direction realFns yaw pitch 2 = 1 := by
  rw [tb_new_direction_eq]
  simp only [Matrix.cons_val_zero, Matrix.cons_val_one, Matrix.cons_val_two,
    Matrix.head_cons, Matrix.tail_cons]
  exact tb_direction2_vecSq yaw pitch

theorem tb_dot_nd_right (yaw pitch : ℝ) :
    camera.tb_new_direction realFns yaw pitch 0 * camera.tb_right realFns yaw 0 +
      camera.tb_new_direction realFns yaw pitch 1 * camera.tb_right realFns yaw 1 +
      camera.tb_new_direction realFns yaw pitch 2 * camera.tb_right realFns yaw 2 = 0 := by
  rw [tb_new_direction_eq]
  simp only [Matrix.cons_val_zero, Matrix.cons_val_one, Matrix.cons_val_two,
    Matrix.head_cons, Matrix.tail_cons]
  simp only [camera.tb_direction2, camera.tb_pitch_rotation]
  rw [sandwich_axis_dot]
  rw [tb_dot_d1_right]
  ring

theorem tb_up_vector_eq (yaw pitch : ℝ) :
    camera.tb_up_vector realFns yaw pitch =
      vector_cross (camera.tb_new_direction realFns yaw pitch) (camera.tb_right realFns yaw) := by
  unfold camera.tb_up_vector
  refine vector_normalize_of_normSq_one _ ?_
  rw [cross_normSq, tb_new_direction_normSq, tb_right_normSq, tb_dot_nd_right]
  norm_num

theorem tb_up_vector_normSq (yaw pitch : ℝ) :
    camera.tb_up_vector realFns yaw pitch 0 * camera.tb_up_vector realFns yaw pitch 0 +
      camera.tb_up_vector realFns yaw pitch 1 * camera.tb_up_vector realFns yaw pitch 1 +
      camera.tb_up_vector realFns yaw pitch 2 * camera.tb_up_vector realFns yaw pitch 2 =
      1 := by
  rw [tb_up_vector_eq, cross_normSq, tb_new_direction_normSq, tb_right_normSq,
    tb_dot_nd_right]
  norm_num

theorem tb_roll_rotation_normSq (yaw pitch roll : ℝ) :
    camera.tb_roll_rotation realFns yaw pitch roll 0 *
        camera.tb_roll_rotation realFns yaw pitch roll 0 +
      camera.tb_roll_rotation realFns yaw pitch roll 1 *
        camera.tb_roll_rotation realFns yaw pitch roll 1 +
      camera.tb_roll_rotation realFns yaw pitch roll 2 *
        camera.tb_roll_rotation realFns yaw pitch roll 2 +
      camera.tb_roll_rotation realFns yaw pitch roll 3 *
        camera.tb_roll_rotation realFns yaw pitch roll 3 = 1 := by
  have hn := tb_new_direction_normSq yaw pitch
  have hrc := sin_self_add_cos_self (roll / 2)
  simp only [camera.tb_roll_rotation, realFns_sin, realFns_cos, Matrix.cons_val_zero,
    Matrix.cons_val_one, Matrix.cons_val_two, Matrix.cons_val_three, Matrix.head_cons,
    Matrix.tail_cons]
  linear_combination (Real.sin (roll / 2) * Real.sin (roll / 2)) * hn + hrc

theorem tb_up_quaternion_vecSq (yaw pitch roll : ℝ) :
    camera.tb_up_quaternion realFns yaw pitch roll 0 *
        camera.tb_up_quaternion realFns yaw pitch roll 0 +
      camera.tb_up_quaternion realFns yaw pitch roll 1 *
        camera.tb_up_quaternion realFns yaw pitch roll 1 +
      camera.tb_up_quaternion realFns yaw pitch roll 2 *
        camera.tb_up_quaternion realFns yaw pitch roll 2 = 1 := by
  simp only [camera.tb_up_quaternion]
  rw [sandwich_vec_normSq]
  simp only [Matrix.cons_val_zero, Matrix.cons_val_one, Matrix.cons_val_two,
    Matrix.head_cons, Matrix.tail_cons]
  rw [tb_roll_rotation_normSq, tb_up_vector_normSq]
  norm_num

theorem camera.set_direction_m_direction (c : camera α) (fns : ScalarFns α)
    (v : Fin 3 → α) :
    (c.set_direction fns v).m_direction = vector_normalize fns v := by
  by_cases h : c.m_direction = vector_normalize fns v
  · simp [camera.set_direction, h]
  · simp [camera.set_direction, h]

theorem camera.set_up_m_up (c : camera α) (fns : ScalarFns α) (v : Fin 3 → α) :
    (c.set_up fns v).m_up = vector_normalize fns v := by
  by_cases h : c.m_up = vector_normalize fns v
  · simp [camera.set_up, h]
  · simp [camera.set_up, h]

omit [DecidableEq α] in
theorem camera.rotate_m_direction (c : camera α) (fns : ScalarFns α)
    (rotation : Fin 4 → α) :
    (c.rotate fns rotation).m_direction =
      vector_normalize fns
        ![quaternion_multiply
            (quaternion_multiply rotation
              ![c.m_direction 0, c.m_direction 1, c.m_direction 2, 0])
            (quaternion_conjugate rotation) 0,
          quaternion_multiply
            (quaternion_multiply rotation
              ![c.m_direction 0, c.m_direction 1, c.m_direction 2, 0])
            (quaternion_conjugate rotation) 1,
          quaternion_multiply
            (quaternion_multiply rotation
              ![c.m_direction 0, c.m_direction 1, c.m_direction 2, 0])
            (quaternion_conjugate rotation) 2] :=
  rfl

omit [DecidableEq α] in
theorem camera.rotate_m_up (c : camera α) (fns : ScalarFns α) (rotation : Fin 4 → α) :
    (c.rotate fns rotation).m_up =
      vector_normalize fns
        ![quaternion_multiply
            (quaternion_multiply rotation ![c.m_up 0, c.m_up 1, c.m_up 2, 0])
            (quaternion_conjugate rotation) 0,
          quaternion_multiply
            (quaternion_multiply rotation ![c.m_up 0, c.m_up 1, c.m_up 2, 0])
            (quaternion_conjugate rotation) 1,
          quaternion_multiply
            (quaternion_multiply rotation ![c.m_up 0, c.m_up 1, c.m_up 2, 0])
            (quaternion_conjugate rotation) 2] :=
  rfl

/-- The vector part of the sandwich of a nonzero vector by a nonzero
quaternion is nonzero, so the subsequent normalization yields a unit
vector. -/
theorem sandwich_vec_unit (q : Fin 4 → ℝ) (w : Fin 3 → ℝ) (hq : q ≠ 0) (hw : w ≠ 0) :
    vector_length realFns
      (vector_normalize realFns
        ![quaternion_multiply (quaternion_multiply q ![w 0, w 1, w 2, 0])
            (quaternion_conjugate q) 0,
          quaternion_multiply (quaternion_multiply q ![w 0, w 1, w 2, 0])
            (quaternion_conjugate q) 1,
          quaternion_multiply (quaternion_multiply q ![w 0, w 1, w 2, 0])
            (quaternion_conjugate q) 2]) = 1 := by
  refine vector_length_normalize_eq_one _ (vec3_ne_zero_of_normSq_pos _ ?_)
  simp only [Matrix.cons_val_zero, Matrix.cons_val_one, Matrix.cons_val_two,
    Matrix.head_cons, Matrix.tail_cons]
  rw [sandwich_vec_normSq]
  simp only [Matrix.cons_val_zero, Matrix.cons_val_one, Matrix.cons_val_two,
    Matrix.head_cons, Matrix.tail_cons]
  have h1 := quat4_normSq_pos q hq
  have h2 := vec3_normSq_pos w hw
  exact mul_pos h1 (mul_pos h1 h2)

theorem quat4_ne_zero_of_normSq_pos (q : Fin 4 → ℝ)
    (h : 0 < q 0 * q 0 + q 1 * q 1 + q 2 * q 2 + q 3 * q 3) : q ≠ 0 := by
  intro h0
  rw [h0] at h
  simp at h

/-- C7: the stored direction and up vectors have unit length after every
orientation mutation with non-degenerate inputs: `set_direction`/`set_up`
with a non-zero vector, construction with non-zero view vectors, `rotate`
with a non-zero quaternion (resp. a non-zero axis) on a camera with
non-zero stored vectors, and `set_orientation_taitbryan` for arbitrary
angles. -/
theorem claim_C7_unit_vectors (c : camera ℝ) (v dir up pos axis : Fin 3 → ℝ)
    (q : Fin 4 → ℝ) (fov aspect near_distance far_distance angle yaw pitch roll : ℝ)
    (proj view mat : Fin 16 → ℝ) :
    (v ≠ 0 → vector_length realFns ((c.set_direction realFns v).m_direction) = 1) ∧
    (v ≠ 0 → vector_length realFns ((c.set_up realFns v).m_up) = 1) ∧
    (dir ≠ 0 →
      vector_length realFns
        ((camera.mk_full realFns fov aspect near_distance far_distance pos dir up
          proj view mat).m_direction) = 1) ∧
    (up ≠ 0 →
      vector_length realFns
        ((camera.mk_full realFns fov aspect near_distance far_distance pos dir up
          proj view mat).m_up) = 1) ∧
    (q ≠ 0 → c.m_direction ≠ 0 → c.m_up ≠ 0 →
      vector_length realFns ((c.rotate realFns q).m_direction) = 1 ∧
      vector_length realFns ((c.rotate realFns q).m_up) = 1) ∧
    (axis ≠ 0 → c.m_direction ≠ 0 → c.m_up ≠ 0 →
      vector_length realFns ((c.rotate_axis_angle realFns axis angle).m_direction) = 1 ∧
      vector_length realFns ((c.rotate_axis_angle realFns axis angle).m_up) = 1) ∧
    (vector_length realFns
        ((c.set_orientation_taitbryan realFns yaw pitch roll).m_direction) = 1 ∧
      vector_length realFns
        ((c.set_orientation_taitbryan realFns yaw pitch roll).m_up) = 1) := by
  have hrot : ∀ (c' : camera ℝ) (q' : Fin 4 → ℝ), q' ≠ 0 → c'.m_direction ≠ 0 →
      c'.m_up ≠ 0 →
      vector_length realFns ((c'.rotate realFns q').m_direction) = 1 ∧
      vector_length realFns ((c'.rotate realFns q').m_up) = 1 := by
    intro c' q' hq hd hu
    constructor
    · rw [camera.rotate_m_direction]
      exact sandwich_vec_unit q' c'.m_direction hq hd
    · rw [camera.rotate_m_up]
      exact sandwich_vec_unit q' c'.m_up hq hu
  refine ⟨?_, ?_, ?_, ?_, hrot c q, ?_, ?_, ?_⟩
  · intro hv
    rw [camera.set_direction_m_direction]
    exact vector_length_normalize_eq_one v hv
  · intro hv
    rw [camera.set_up_m_up]
    exact vector_length_normalize_eq_one v hv
  · intro hd
    exact vector_length_normalize_eq_one dir hd
  · intro hu
    exact vector_length_normalize_eq_one up hu
  · intro haxis hd hu
    refine hrot c _ ?_ hd hu
    refine quat4_ne_zero_of_normSq_pos _ ?_
    simp only [Matrix.cons_val_zero, Matrix.cons_val_one, Matrix.cons_val_two,
      Matrix.cons_val_three, Matrix.head_cons, Matrix.tail_cons, realFns_sin, realFns_cos]
    have hA := vec3_normSq_pos axis haxis
    have hsc := sin_self_add_cos_self (angle / 2)
    by_cases hs : Real.sin (angle / 2) * Real.sin (angle / 2) = 0
    · nlinarith [mul_self_nonneg (Real.cos (angle / 2)),
        mul_self_nonneg (axis 0 * Real.sin (angle / 2)),
        mul_self_nonneg (axis 1 * Real.sin (angle / 2)),
        mul_self_nonneg (axis 2 * Real.sin (angle / 2))]
    · have hspos : 0 < Real.sin (angle / 2) * Real.sin (angle / 2) :=
        lt_of_le_of_ne (mul_self_nonneg _) (Ne.symm hs)
      nlinarith [mul_pos hA hspos, mul_self_nonneg (Real.cos (angle / 2))]
  · show vector_length realFns (camera.tb_new_direction realFns yaw pitch) = 1
    exact vector_length_of_normSq_one _ (tb_new_direction_normSq yaw pitch)
  · show vector_length realFns
      (vector_normalize realFns
        ![camera.tb_up_quaternion realFns yaw pitch roll 0,
          camera.tb_up_quaternion realFns yaw pitch roll 1,
          camera.tb_up_quaternion realFns yaw pitch roll 2]) = 1
    have h := tb_up_quaternion_vecSq yaw pitch roll
    rw [vector_normalize_of_normSq_one _ (by
      simp only [Matrix.cons_val_zero, Matrix.cons_val_one, Matrix.cons_val_two,
        Matrix.head_cons, Matrix.tail_cons]
      exact h)]
    refine vector_length_of_normSq_one _ ?_
    simp only [Matrix.cons_val_zero, Matrix.cons_val_one, Matrix.cons_val_two,
      Matrix.head_cons, Matrix.tail_cons]
    exact h

/-- Witness for C7: `set_direction` with the non-zero vector `(1,0,0)` on
the default real camera stores a unit direction. -/
theorem claim_C7_witness :
    (![1, 0, 0] : Fin 3 → ℝ) ≠ 0 ∧
    vector_length realFns ((camR.set_direction realFns ![1, 0, 0]).m_direction) = 1 :=
  have hv : (![1, 0, 0] : Fin 3 → ℝ) ≠ 0 := by
    intro h0
    have h00 := congrFun h0 0
    norm_num at h00
  ⟨hv,
    (claim_C7_unit_vectors camR ![1, 0, 0] ![1, 0, 0] ![1, 0, 0] ![1, 0, 0] ![1, 0, 0]
      ![0, 0, 0, 1] 1 1 1 1 1 0 0 0 (fun _ => 0) (fun _ => 0) (fun _ => 0)).1 hv⟩

/-- Witness for the amended C2 at the concrete counterexample sequence. -/
theorem claim_C2_amended_witness :
    ((HandleWorld.run 42 [.moveConstructFrom 0, .moveAssign 1 0]).destroyAll.count 42 = 1) ∧
    ((HandleWorld.run 42 [.moveConstructFrom 0, .moveAssign 1 0]).destroyLog = []) ∧
    (∀ k, (HandleWorld.run 42 [.moveConstructFrom 0, .moveAssign 1 0]).mfCons k = true →
      (HandleWorld.run 42 [.moveConstructFrom 0, .moveAssign 1 0]).names k = 0) ∧
    (∀ (w : HandleWorld) (target src : Nat), target < w.len → src < w.len →
      (w.step (.moveAssign target src)).names target = w.names src ∧
      (src ≠ target → (w.step (.moveAssign target src)).names src = w.names target) ∧
      (w.step (.moveAssign target src)).destroyLog = w.destroyLog) :=
  claim_C2_amended 42 (by decide) [.moveConstructFrom 0, .moveAssign 1 0]

end gls
